import Mathlib

/-!
Verification of the certforge generator/decoder (osage-io/certforge,
`certforge.go`).  Go strings are modelled as `List Char`, raw byte
strings as `List Nat` (each entry a byte value), Go `int`/`int64`
as `Int` with explicit two's-complement wrapping where overflow can
occur, and the fallible library calls of `crypto/x509` as oracle
parameters.  Every definition mirrors the corresponding Go function.
-/

namespace CertForge

/-- Go `contains` (certforge.go lines 30-37): linear scan of a string
slice, returning true on the first element equal to `str`. -/
def contains (slice : List (List Char)) (str : List Char) : Bool :=
  match slice with
  | [] => false
  | item :: rest => if item = str then true else contains rest str

/-- Go `strings.Contains(s, substr)`: true when `substr` occurs as a
contiguous substring of `s` (`strings.Index(s, substr) >= 0`). -/
def stringContains (s sub : List Char) : Bool :=
  (List.range (s.length + 1)).any
    (fun i => decide ((s.drop i).take sub.length = sub))

/-- The certificate template's DNS names (certforge.go lines 607-615):
start from the SAN list when non-empty, then append the CommonName when
it is not already present and contains a dot. -/
def certDNSNames (sans : List (List Char)) (commonName : List Char) :
    List (List Char) :=
  let dnsNames : List (List Char) := if 0 < sans.length then sans else []
  if !(contains dnsNames commonName) && stringContains commonName ['.'] then
    dnsNames ++ [commonName]
  else
    dnsNames

/-- Numeric value of a non-empty list of decimal digit characters. -/
def natOfDigits (ds : List Char) : Nat :=
  ds.foldl (fun a c => a * 10 + (c.toNat - 48)) 0

/-- Go `fmt.Sscanf(s, "%d", &x)` on an already-trimmed string: an
optional sign followed by a maximal run of decimal digits.  `none` when
no digit is available or the value does not fit in a 64-bit int (in
both cases Go leaves the scanned variable unchanged). -/
def scanIntGo (l : List Char) : Option Int :=
  let signRest : (Int × List Char) :=
    match l with
    | '-' :: r => (-1, r)
    | '+' :: r => (1, r)
    | _ => (1, l)
  let ds := signRest.2.takeWhile (fun c => c.isDigit)
  if ds = [] then none
  else
    let v : Int := signRest.1 * (natOfDigits ds : Nat)
    if v < -(2 ^ 63) ∨ (2 ^ 63 - 1) < v then none else some v

/-- Go `validSizes := map[int]bool{2048: true, 3072: true, 4096: true}`
lookup (certforge.go line 411); a missing key yields false. -/
def validSize (k : Int) : Bool :=
  k == 2048 || k == 3072 || k == 4096

/-- Key-size selection (certforge.go lines 404-416): default 2048; a
non-empty answer is scanned with `%d` (leaving 2048 in place when the
scan fails) and replaced by 2048 when not in the allowed set. -/
def effectiveKeySize (keySizeStr : List Char) : Int :=
  let keySize : Int := 2048
  if keySizeStr ≠ [] then
    let keySize := match scanIntGo keySizeStr with
      | some v => v
      | none => keySize
    if !(validSize keySize) then 2048 else keySize
  else keySize

/-- Go `pkix.Name` restricted to the fields certforge reads. -/
structure PkixName where
  commonName : List Char
  organization : List (List Char)
  organizationalUnit : List (List Char)
  country : List (List Char)
  province : List (List Char)
  locality : List (List Char)
deriving DecidableEq

/-- Go `strings.Join(elems, sep)`. -/
def goJoin (sep : List Char) : List (List Char) → List Char
  | [] => []
  | [x] => x
  | x :: y :: rest => x ++ sep ++ goJoin sep (y :: rest)

/-- Go `formatName` (certforge.go lines 234-262): accumulate the parts
in source order and join them with a comma and a space. -/
def formatName (n : PkixName) : List Char :=
  let parts : List (List Char) := []
  let parts := if n.commonName ≠ [] then
      parts ++ [['C', 'N', '='] ++ n.commonName] else parts
  let parts := parts ++ n.organization.map (fun o => ['O', '='] ++ o)
  let parts := parts ++ n.organizationalUnit.map (fun u => ['O', 'U', '='] ++ u)
  let parts := parts ++ n.country.map (fun c => ['C', '='] ++ c)
  let parts := parts ++ n.province.map (fun p => ['S', 'T', '='] ++ p)
  let parts := parts ++ n.locality.map (fun l => ['L', '='] ++ l)
  goJoin [',', ' '] parts

/-- The parts of a distinguished name in the order the specification
prescribes: CN first when present, then every O, OU, C, ST and L value;
absent fields contribute no part at all. -/
def formatNameParts (n : PkixName) : List (List Char) :=
  (if n.commonName = [] then [] else [['C', 'N', '='] ++ n.commonName])
    ++ n.organization.map (fun o => ['O', '='] ++ o)
    ++ n.organizationalUnit.map (fun u => ['O', 'U', '='] ++ u)
    ++ n.country.map (fun c => ['C', '='] ++ c)
    ++ n.province.map (fun p => ['S', 'T', '='] ++ p)
    ++ n.locality.map (fun l => ['L', '='] ++ l)

theorem contains_eq (l : List (List Char)) (s : List Char) :
    contains l s = decide (s ∈ l) := by
  induction l with
  | nil => simp [contains]
  | cons x xs ih =>
    by_cases hx : x = s
    · simp [contains, hx]
    · simp [contains, hx, ih, Ne.symm hx]

/-- C3: the generated self-signed certificate's DNSNames equal the SAN
list with the CommonName appended exactly when the CommonName contains
a dot and is not already an element of the SAN list; otherwise they
equal the SAN list unchanged. -/
theorem c3_cert_dnsNames (sans : List (List Char)) (cn : List Char) :
    certDNSNames sans cn =
      if stringContains cn ['.'] = true ∧ cn ∉ sans then sans ++ [cn]
      else sans := by
  have hd : (if 0 < sans.length then sans else ([] : List (List Char))) = sans := by
    cases sans <;> simp
  by_cases hmem : cn ∈ sans <;> by_cases hdot : stringContains cn ['.'] = true <;>
    simp [certDNSNames, hd, contains_eq, hmem, hdot]

/-- C4: a requested RSA key size outside {2048, 3072, 4096} (including
1024, a non-numeric answer, or an empty answer) falls back to 2048,
while a size in that set is used unchanged. -/
theorem c4_keySize_fallback (s : List Char) :
    (s = [] → effectiveKeySize s = 2048)
    ∧ (scanIntGo s = none → effectiveKeySize s = 2048)
    ∧ (∀ v : Int, scanIntGo s = some v →
        v ∉ ([2048, 3072, 4096] : List Int) → effectiveKeySize s = 2048)
    ∧ (∀ v : Int, scanIntGo s = some v →
        v ∈ ([2048, 3072, 4096] : List Int) → effectiveKeySize s = v) := by
  have hvalid : ∀ v : Int, validSize v = true ↔
      v ∈ ([2048, 3072, 4096] : List Int) := by
    intro v; simp [validSize, or_assoc]
  refine ⟨?_, ?_, ?_, ?_⟩
  · intro h; simp [effectiveKeySize, h]
  · intro h
    by_cases hs : s = []
    · simp [effectiveKeySize, hs]
    · simp [effectiveKeySize, hs, h, validSize]
  · intro v hv hnot
    have hs : s ≠ [] := by
      intro h; rw [h] at hv; simp [scanIntGo] at hv
    have hf : validSize v = false := by
      rw [← Bool.not_eq_true, hvalid]; exact hnot
    simp [effectiveKeySize, hs, hv, hf]
  · intro v hv hmem
    have hs : s ≠ [] := by
      intro h; rw [h] at hv; simp [scanIntGo] at hv
    have ht : validSize v = true := (hvalid v).mpr hmem
    simp [effectiveKeySize, hs, hv, ht]

/-- Witness for C4 at concrete inputs: 1024 coerces to 2048, 3072 is
kept, the empty answer yields 2048. -/
theorem c4_keySize_fallback_witness :
    effectiveKeySize ['1', '0', '2', '4'] = 2048
    ∧ effectiveKeySize ['3', '0', '7', '2'] = 3072
    ∧ effectiveKeySize [] = 2048 :=
  ⟨(c4_keySize_fallback _).2.2.1 1024 (by decide) (by decide),
   (c4_keySize_fallback _).2.2.2 3072 (by decide) (by decide),
   (c4_keySize_fallback _).1 rfl⟩

theorem take3_cons_cons_ne (c d : Char) (x : List Char)
    (h : c ≠ 'C' ∨ d ≠ 'N') :
    (c :: d :: x).take 3 ≠ ['C', 'N', '='] := by
  cases x <;> rcases h with h | h <;> simp [h]

/-- C5: `formatName` renders the parts in the order CN, O (per value),
OU, C, ST, L joined by a comma and a space; an absent CommonName
contributes no CN part (and a fully absent identity renders as the
empty string). -/
theorem c5_formatName_order (n : PkixName) :
    formatName n = goJoin [',', ' '] (formatNameParts n)
    ∧ (n.commonName = [] →
        (formatNameParts n).all
          (fun p => decide (p.take 3 ≠ ['C', 'N', '='])) = true)
    ∧ formatName ⟨[], [], [], [], [], []⟩ = [] := by
  refine ⟨?_, ?_, by simp [formatName, goJoin]⟩
  · by_cases hcn : n.commonName = [] <;>
      simp [formatName, formatNameParts, hcn]
  · intro hcn
    rw [List.all_eq_true]
    intro p hp
    simp only [formatNameParts, hcn, List.mem_append, List.mem_map, if_true,
      List.nil_append, List.not_mem_nil, false_or, or_assoc] at hp
    rcases hp with ⟨x, -, rfl⟩ | ⟨x, -, rfl⟩ | ⟨x, -, rfl⟩ | ⟨x, -, rfl⟩ |
      ⟨x, -, rfl⟩
    all_goals simp only [decide_eq_true_eq, List.cons_append, List.nil_append]
    all_goals exact take3_cons_cons_ne _ _ _ (by decide)

/-- Witness for C5 at a concrete identity with no CommonName: the
rendering agrees with the spec ordering and contains no CN part. -/
theorem c5_formatName_order_witness :
    formatName ⟨[], [['A', 'c', 'm', 'e']], [], [], [], []⟩
        = goJoin [',', ' ']
            (formatNameParts ⟨[], [['A', 'c', 'm', 'e']], [], [], [], []⟩)
    ∧ (formatNameParts ⟨[], [['A', 'c', 'm', 'e']], [], [], [], []⟩).all
        (fun p => decide (p.take 3 ≠ ['C', 'N', '='])) = true :=
  ⟨(c5_formatName_order _).1, (c5_formatName_order _).2.1 rfl⟩

/-- Two's-complement wrap-around of Go's 64-bit signed arithmetic:
9223372036854775808 = 2^63 and 18446744073709551616 = 2^64. -/
def wrap64 (x : Int) : Int :=
  (x + 9223372036854775808) % 18446744073709551616 - 9223372036854775808

/-- Go `time.Duration(validDays) * 24 * time.Hour` (certforge.go line
588): the duration in nanoseconds, with each multiplication wrapping
per int64 (`time.Hour` is 3600000000000 ns). -/
def goDurationDays (d : Int) : Int :=
  wrap64 (wrap64 (d * 24) * 3600000000000)

/-- `notBefore.Add(time.Duration(validDays) * 24 * time.Hour)`
(certforge.go lines 587-588), with instants as nanosecond counts. -/
def notAfterOf (notBefore d : Int) : Int :=
  notBefore + goDurationDays d

theorem wrap64_eq_self (x : Int)
    (h1 : -9223372036854775808 ≤ x) (h2 : x < 9223372036854775808) :
    wrap64 x = x := by
  unfold wrap64
  omega

theorem goDurationDays_eq (d : Int)
    (h1 : -106751 ≤ d) (h2 : d ≤ 106751) :
    goDurationDays d = d * 86400000000000 := by
  have e1 : wrap64 (d * 24) = d * 24 := by
    refine wrap64_eq_self _ (by nlinarith) (by nlinarith)
  have e2 : wrap64 (d * 24 * 3600000000000) = d * 24 * 3600000000000 := by
    refine wrap64_eq_self _ (by nlinarith) (by nlinarith)
  unfold goDurationDays
  rw [e1, e2]
  ring

/-- Self-signed selection (certforge.go lines 427-436): the -s flag
wins; otherwise the trimmed lower-cased prompt reply must be y or yes. -/
def createSelfsignedOf (selfSignedFlag : Bool) (answer : List Char) : Bool :=
  if !selfSignedFlag then answer == ['y'] || answer == ['y', 'e', 's']
  else selfSignedFlag

/-- Validity-days resolution (certforge.go lines 427-450): starts from
the -days flag; only on the interactive path (self-signed chosen at the
prompt, not via -s) is a non-empty reply scanned and a nonpositive
result replaced by 365. -/
def effectiveValidDays (selfSignedFlag : Bool) (daysFlag : Int)
    (answer : List Char) (validDaysStr : List Char) : Int :=
  let createSelfsigned := createSelfsignedOf selfSignedFlag answer
  let validDays := daysFlag
  if createSelfsigned && !selfSignedFlag then
    if validDaysStr ≠ [] then
      let validDays := match scanIntGo validDaysStr with
        | some v => v
        | none => validDays
      if validDays ≤ 0 then 365 else validDays
    else validDays
  else validDays

/-- C9 (amended): for every validity period d whose 24-hour product
fits in Go's int64 duration (|d| ≤ 106751 days), the certificate's
NotAfter equals NotBefore plus exactly d times 24 hours. -/
theorem c9_notAfter_of_validDays (nb d : Int)
    (h1 : -106751 ≤ d) (h2 : d ≤ 106751) :
    notAfterOf nb d = nb + d * 86400000000000 := by
  unfold notAfterOf
  rw [goDurationDays_eq d h1 h2]

/-- Witness for C9 at the spec's example, 730 days. -/
theorem c9_notAfter_of_validDays_witness :
    notAfterOf 0 730 = 0 + 730 * 86400000000000 :=
  c9_notAfter_of_validDays 0 730 (by norm_num) (by norm_num)

/-- C9 counterexample: at 200000 days the duration multiplication
overflows int64 and wraps negative, so NotAfter lies before NotBefore
instead of equalling NotBefore + 200000·24h. -/
theorem c9_notAfter_overflow_cex :
    ¬(notAfterOf 0 200000 = 0 + 200000 * 86400000000000)
    ∧ notAfterOf 0 200000 < 0 := by
  constructor <;> decide

/-- C10 (amended): with the -s flag the validity prompt and its
positivity check are skipped, so the -days value is used unvalidated;
a nonpositive value that does not overflow int64 (d ≥ -106751) then
produces NotAfter at or before NotBefore. -/
theorem c10_flag_days_unvalidated (d nb : Int)
    (answer validDaysStr : List Char) :
    effectiveValidDays true d answer validDaysStr = d
    ∧ (d ≤ 0 → -106751 ≤ d → notAfterOf nb d ≤ nb) := by
  constructor
  · simp [effectiveValidDays, createSelfsignedOf]
  · intro hle hge
    unfold notAfterOf
    rw [goDurationDays_eq d hge (by linarith)]
    nlinarith

/-- Witness for C10: -days=-5 on the flag path is used as is and gives
NotAfter before NotBefore. -/
theorem c10_flag_days_unvalidated_witness :
    effectiveValidDays true (-5) [] [] = -5 ∧ notAfterOf 0 (-5) ≤ 0 :=
  ⟨(c10_flag_days_unvalidated (-5) 0 [] []).1,
   (c10_flag_days_unvalidated (-5) 0 [] []).2 (by norm_num) (by norm_num)⟩

/-- C10 counterexample: -days=-200000 is indeed accepted unvalidated on
the flag path, but its duration overflows int64 and wraps positive, so
NotAfter is strictly after NotBefore, contradicting the claim. -/
theorem c10_flag_days_overflow_cex :
    effectiveValidDays true (-200000) [] [] = -200000
    ∧ 0 < notAfterOf 0 (-200000) := by
  constructor <;> decide

/-- Go `x509.KeyUsage` bit constants (1 << iota). -/
def kuDigitalSignature : Nat := 1

def kuContentCommitment : Nat := 2

def kuKeyEncipherment : Nat := 4

def kuDataEncipherment : Nat := 8

def kuKeyAgreement : Nat := 16

def kuCertSign : Nat := 32

def kuCRLSign : Nat := 64

def kuEncipherOnly : Nat := 128

def kuDecipherOnly : Nat := 256

/-- The key-usage names `printCertificateInfo` can print. -/
inductive KeyUsageFlag where
  | digitalSignature
  | contentCommitment
  | keyEncipherment
  | dataEncipherment
  | keyAgreement
  | certSign
  | crlSign
  | encipherOnly
  | decipherOnly
deriving DecidableEq

/-- The extended-key-usage names `printCertificateInfo` can print. -/
inductive ExtKeyUsageVal where
  | serverAuth
  | clientAuth
  | codeSigning
  | emailProtection
  | timeStamping
  | ocspSigning
deriving DecidableEq

/-- The key-usage lines printed by `printCertificateInfo` (certforge.go
lines 118-145): one bit test per flag, in source order. -/
def decodedKeyUsages (ku : Nat) : List KeyUsageFlag :=
  (if ku &&& kuDigitalSignature ≠ 0 then [.digitalSignature] else [])
  ++ (if ku &&& kuContentCommitment ≠ 0 then [.contentCommitment] else [])
  ++ (if ku &&& kuKeyEncipherment ≠ 0 then [.keyEncipherment] else [])
  ++ (if ku &&& kuDataEncipherment ≠ 0 then [.dataEncipherment] else [])
  ++ (if ku &&& kuKeyAgreement ≠ 0 then [.keyAgreement] else [])
  ++ (if ku &&& kuCertSign ≠ 0 then [.certSign] else [])
  ++ (if ku &&& kuCRLSign ≠ 0 then [.crlSign] else [])
  ++ (if ku &&& kuEncipherOnly ≠ 0 then [.encipherOnly] else [])
  ++ (if ku &&& kuDecipherOnly ≠ 0 then [.decipherOnly] else [])

/-- The certificate fields certforge reads or sets. -/
structure GeneratedCert where
  serialNumber : Nat
  subject : PkixName
  issuer : PkixName
  notBefore : Int
  notAfter : Int
  keyUsage : Nat
  extKeyUsage : List ExtKeyUsageVal
  basicConstraintsValid : Bool
  dnsNames : List (List Char)
deriving DecidableEq

/-- The self-signed certificate produced from the template of
certforge.go lines 597-619; `x509.CreateCertificate` is called with the
template as its own parent, so the issuer is the template's subject. -/
def mkSelfSignedCert (subj : PkixName) (serial : Nat)
    (notBefore validDays : Int) (sans : List (List Char)) : GeneratedCert where
  serialNumber := serial
  subject := subj
  issuer := subj
  notBefore := notBefore
  notAfter := notAfterOf notBefore validDays
  keyUsage := kuKeyEncipherment ||| kuDigitalSignature
  extKeyUsage := [.serverAuth]
  basicConstraintsValid := true
  dnsNames := certDNSNames sans subj.commonName

/-- The decoder's self-signed check (certforge.go line 114): string
equality of the rendered subject and issuer. -/
def isSelfSignedVia (render : PkixName → List Char) (c : GeneratedCert) : Bool :=
  render c.subject == render c.issuer

/-- C6: every produced self-signed certificate has subject equal to
issuer — hence the decoder's string-equality self-signed flag is true
for any rendering — key usage exactly DigitalSignature plus
KeyEncipherment, and extended key usage exactly the one-element
ServerAuth list. -/
theorem c6_selfSigned_fields (subj : PkixName) (serial : Nat)
    (nb d : Int) (sans : List (List Char)) :
    (mkSelfSignedCert subj serial nb d sans).subject
        = (mkSelfSignedCert subj serial nb d sans).issuer
    ∧ (∀ render : PkixName → List Char,
        isSelfSignedVia render (mkSelfSignedCert subj serial nb d sans) = true)
    ∧ decodedKeyUsages (mkSelfSignedCert subj serial nb d sans).keyUsage
        = [.digitalSignature, .keyEncipherment]
    ∧ (mkSelfSignedCert subj serial nb d sans).extKeyUsage
        = [.serverAuth] := by
  refine ⟨rfl, fun render => ?_, by simp only [mkSelfSignedCert]; decide, rfl⟩
  simp [isSelfSignedVia, mkSelfSignedCert]

/-- Go `encoding/asn1` tag-and-length header. -/
structure TagLen where
  cls : Nat
  isCompound : Bool
  tag : Nat
  len : Nat
deriving DecidableEq

/-- Go `asn1.RawValue`, as far as certforge uses it (FullBytes is
always empty on the marshalling side). -/
structure ARawValue where
  cls : Nat
  tag : Nat
  isCompound : Bool
  bytes : List Nat
deriving DecidableEq

/-- Go `encoding/asn1.parseBase128Int`: big-endian 7-bit groups with a
continuation bit; at most 5 bytes, minimally encoded, and the value
must fit an int32.  Bytes are below 256, so the continuation test
`b & 0x80 == 0` is `b < 128`. -/
def parseBase128Int (l : List Nat) (shifted acc : Nat) :
    Option (Nat × List Nat) :=
  match l with
  | [] => none
  | b :: rest =>
    if shifted = 5 then none
    else
      let acc := acc * 128
      if shifted = 0 ∧ b = 128 then none
      else
        let acc := acc + b % 128
        if b < 128 then
          if 2147483647 < acc then none else some (acc, rest)
        else parseBase128Int rest (shifted + 1) acc

/-- The long-form length loop of Go `parseTagAndLength`: `numBytes`
further bytes, rejecting truncation, accumulations of 1<<23 = 8388608
or more before a shift, a leading zero byte, and afterwards values
that should have used the short form. -/
def parseLongLen (numBytes acc : Nat) (l : List Nat) :
    Option (Nat × List Nat) :=
  match numBytes with
  | 0 => if acc < 128 then none else some (acc, l)
  | n + 1 =>
    match l with
    | [] => none
    | b :: rest =>
      if 8388608 ≤ acc then none
      else
        let acc := acc * 256 + b
        if acc = 0 then none
        else parseLongLen n acc rest

/-- Go `encoding/asn1.parseTagAndLength` on the remaining input, with
the offset arithmetic replaced by consuming from the front. -/
def parseTagAndLength (l : List Nat) : Option (TagLen × List Nat) :=
  match l with
  | [] => none
  | b :: rest =>
    let cls := b / 64
    let isComp : Bool := b / 32 % 2 == 1
    let tagRes : Option (Nat × List Nat) :=
      if b % 32 = 31 then
        match parseBase128Int rest 0 0 with
        | some (t, r) => if t < 31 then none else some (t, r)
        | none => none
      else some (b % 32, rest)
    match tagRes with
    | none => none
    | some (tag, r1) =>
      match r1 with
      | [] => none
      | lb :: r2 =>
        if lb < 128 then some (⟨cls, isComp, tag, lb⟩, r2)
        else
          let numBytes := lb % 128
          if numBytes = 0 then none
          else
            match parseLongLen numBytes 0 r2 with
            | some (len, r3) => some (⟨cls, isComp, tag, len⟩, r3)
            | none => none

/-- The `asn1.RawValue` branch of Go `parseField`, i.e. what
`asn1.Unmarshal(data, &seq)` does for a RawValue: one TLV, rejecting
truncated contents, returning the value and the unconsumed rest. -/
def parseOneRaw (l : List Nat) : Option (ARawValue × List Nat) :=
  match parseTagAndLength l with
  | none => none
  | some (t, rest) =>
    if t.len ≤ rest.length then
      some (⟨t.cls, t.tag, t.isCompound, rest.take t.len⟩, rest.drop t.len)
    else none

/-- Go `parseSequenceOf` for element type `asn1.RawValue` (which
matches any tag): consecutive TLVs until the content is exhausted.
Each element consumes at least one byte, so fuel equal to the content
length never runs out. -/
def parseRawElems (fuel : Nat) (l : List Nat) : Option (List ARawValue) :=
  match l with
  | [] => some []
  | b :: rest0 =>
    match fuel with
    | 0 => none
    | fuel + 1 =>
      match parseOneRaw (b :: rest0) with
      | none => none
      | some (rv, rest) =>
        match parseRawElems fuel rest with
        | some rvs => some (rv :: rvs)
        | none => none

/-- Go `asn1.Unmarshal(data, &rawValues)` for `[]asn1.RawValue`: the
data must begin with a universal compound SEQUENCE header; its
contents are parsed as consecutive TLVs. -/
def unmarshalRawSlice (l : List Nat) : Option (List ARawValue × List Nat) :=
  match parseTagAndLength l with
  | none => none
  | some (t, rest) =>
    if t.cls = 0 ∧ t.tag = 16 ∧ t.isCompound = true then
      if t.len ≤ rest.length then
        match parseRawElems (rest.take t.len).length (rest.take t.len) with
        | some rvs => some (rvs, rest.drop t.len)
        | none => none
      else none
    else none

/-- The SAN walk of `printCSRInfo` (certforge.go lines 181-193) on one
extension value: unmarshal one RawValue, require it to be fully
consumed and a universal SEQUENCE, unmarshal its content bytes as a
`[]asn1.RawValue`, then keep the entries with context class 2, tag 2. -/
def sanDecodeNames (v : List Nat) : List (List Nat) :=
  match parseOneRaw v with
  | none => []
  | some (seq, rest) =>
    if rest = [] then
      if seq.cls = 0 ∧ seq.tag = 16 then
        match unmarshalRawSlice seq.bytes with
        | none => []
        | some (rvs, rest2) =>
          if rest2 = [] then
            (rvs.filter (fun rv => rv.cls == 2 && rv.tag == 2)).map
              (fun rv => rv.bytes)
          else []
      else []
    else []

/-- Go `encoding/asn1.base128IntLength`. -/
def base128IntLength (n : Nat) : Nat :=
  if h : n < 128 then 1 else 1 + base128IntLength (n / 128)
termination_by n
decreasing_by
  exact Nat.div_lt_self (by omega) (by omega)

/-- Go `encoding/asn1.appendBase128Int`: 7-bit groups, most
significant first, continuation bit on all but the last. -/
def appendBase128Int (n : Nat) : List Nat :=
  (List.range (base128IntLength n)).reverse.map
    (fun i => n / 128 ^ i % 128 + if i = 0 then 0 else 128)

/-- Go `encoding/asn1.lengthLength`: number of bytes of a long-form
length. -/
def lengthLength (i : Nat) : Nat :=
  if 255 < i then 1 + lengthLength (i / 256) else 1
termination_by i
decreasing_by
  exact Nat.div_lt_self (by omega) (by omega)

/-- The long-form length bytes Go emits: `byte(length >> 8*(k))` for k
from `lengthLength - 1` down to 0. -/
def lengthBytesGo (i : Nat) : List Nat :=
  (List.range (lengthLength i)).reverse.map (fun k => i / 256 ^ k % 256)

/-- Go `encoding/asn1.appendTagAndLength`: the identifier byte (class
in the top two bits, 0x20 for compound, the tag in the low five bits,
with the base-128 form for tags of 31 and above) followed by the
short- or long-form length. -/
def appendTagAndLength (t : TagLen) : List Nat :=
  let b := t.cls * 64 + (if t.isCompound then 32 else 0)
  let tagBytes :=
    if 31 ≤ t.tag then (b + 31) :: appendBase128Int t.tag
    else [b + t.tag]
  let lenBytes :=
    if 128 ≤ t.len then (128 + lengthLength t.len) :: lengthBytesGo t.len
    else [t.len]
  tagBytes ++ lenBytes

/-- Go `asn1.Marshal` of one `RawValue` with empty FullBytes: the
header for (class, compound, tag, len(bytes)) then the content. -/
def marshalRawValue (rv : ARawValue) : List Nat :=
  appendTagAndLength ⟨rv.cls, rv.isCompound, rv.tag, rv.bytes.length⟩ ++ rv.bytes

/-- Go `asn1.Marshal` of a `[]RawValue`: the marshalled elements
wrapped in a universal compound SEQUENCE header. -/
def marshalRawValueSlice (rvs : List ARawValue) : List Nat :=
  let body := (rvs.map marshalRawValue).flatten
  appendTagAndLength ⟨0, true, 16, body.length⟩ ++ body

/-- The SAN extension value built in main (certforge.go lines 499-511):
`asn1.Marshal` of one `RawValue{Tag: 2, Class: 2}` per SAN entry. -/
def sanExtensionValue (sans : List (List Nat)) : List Nat :=
  marshalRawValueSlice (sans.map (fun san => ⟨2, 2, false, san⟩))

/-- Go `pkix.Extension` (the Critical field is left at its zero value
by certforge). -/
structure PkixExtension where
  oid : List Nat
  critical : Bool
  value : List Nat
deriving DecidableEq

/-- The ExtraExtensions attached to the CSR template (certforge.go
lines 495-513): one SubjectAltName extension when the SAN list is
non-empty, nothing otherwise. -/
def extraExtensionsOf (sans : List (List Nat)) : List PkixExtension :=
  if 0 < sans.length then [⟨[2, 5, 29, 17], false, sanExtensionValue sans⟩]
  else []

/-- Minimal big-endian base-256 digit string (spec side). -/
def minimalBase256 (n : Nat) : List Nat :=
  if h : n = 0 then [] else minimalBase256 (n / 256) ++ [n % 256]
termination_by n
decreasing_by
  exact Nat.div_lt_self (Nat.pos_of_ne_zero h) (by omega)

/-- Spec-side DER length octets: short form below 128, otherwise
0x80 plus the byte count followed by the minimal big-endian value. -/
def derLength (n : Nat) : List Nat :=
  if n < 128 then [n]
  else (128 + (minimalBase256 n).length) :: minimalBase256 n

/-- Spec-side DER TLV with a one-byte identifier. -/
def derTLV (tagByte : Nat) (content : List Nat) : List Nat :=
  tagByte :: (derLength content.length ++ content)

/-- The SAN extension value as the specification words it: the DER
encoding of a SEQUENCE (identifier 0x30 = 48) holding, per entry in
order, one raw value of context-specific class 2 and tag 2
(identifier 0x82 = 130) whose content bytes are the entry's bytes. -/
def sanValueSpec (sans : List (List Nat)) : List Nat :=
  derTLV 48 ((sans.map (fun s => derTLV 130 s)).flatten)

/-- The fields of a parsed `x509.CertificateRequest` certforge reads. -/
structure CSRView where
  subject : PkixName
  extensions : List PkixExtension
  signatureValid : Bool
deriving DecidableEq

/-- The SAN extraction loop of `printCSRInfo` (lines 176-195): names
appended from every extension carrying OID 2.5.29.17. -/
def extractCSRDNSNames : List PkixExtension → List (List Nat)
  | [] => []
  | e :: rest =>
    (if e.oid = [2, 5, 29, 17] then sanDecodeNames e.value else [])
      ++ extractCSRDNSNames rest

/-- What `printCSRInfo` prints. -/
structure CSRSummary where
  subject : List Char
  dnsNames : List (List Nat)
  signatureValid : Bool
deriving DecidableEq

/-- The summary `printCSRInfo` produces: subject via `formatName`, DNS
names from the SAN walk, the signature self-check; the function is
total, so a malformed SAN extension cannot abort the summary. -/
def csrSummary (c : CSRView) : CSRSummary :=
  ⟨formatName c.subject, extractCSRDNSNames c.extensions, c.signatureValid⟩

/-- Whether an extension value has the shape `printCSRInfo`'s walk
accepts completely: a fully-consumed universal SEQUENCE RawValue whose
content bytes unmarshal as `[]asn1.RawValue` with nothing left over. -/
def sanShapeOK (v : List Nat) : Bool :=
  match parseOneRaw v with
  | none => false
  | some (seq, rest) =>
    rest == [] && seq.cls == 0 && seq.tag == 16 &&
      (match unmarshalRawSlice seq.bytes with
       | none => false
       | some (_, rest2) => rest2 == [])

/-- A concrete CSR for the C8 witness: a key-usage extension and a SAN
extension whose value is a standard (singly-wrapped) SAN sequence for
"abc" — a shape the walk rejects at its inner unmarshal. -/
def c8SampleCSR : CSRView where
  subject := ⟨['e', 'x'], [], [], [], [], []⟩
  extensions :=
    [⟨[2, 5, 29, 15], false, [3, 2, 5, 160]⟩,
     ⟨[2, 5, 29, 17], false, [48, 5, 130, 3, 97, 98, 99]⟩]
  signatureValid := true

/-- The PEM block types `decodeFile` distinguishes. -/
inductive PemBlockType where
  | certificate
  | certificateRequest
  | rsaPrivateKey
  | privateKey
  | other (label : List Char)
deriving DecidableEq

/-- A decoded PEM block: declared type and payload bytes. -/
structure PemBlock where
  btype : PemBlockType
  bytes : List Nat

/-- The RSA key fields `printRSAKeyInfo` reads. -/
structure RSAKeyView where
  modulusBits : Nat
  publicExponent : Nat
deriving DecidableEq

/-- Result of Go `x509.ParsePKCS8PrivateKey` followed by the
`*rsa.PrivateKey` type switch. -/
inductive PKCS8Key where
  | rsa (k : RSAKeyView)
  | nonRSA
deriving DecidableEq

/-- The library calls `decodeFile` dispatches on, as oracles: the file
read, `pem.Decode` (first block only), and the x509 parsers; `none`
models the Go call returning an error. -/
structure DecodeOracles where
  readFile : Option (List Nat)
  pemDecode : List Nat → Option PemBlock
  parseCertificate : List Nat → Option GeneratedCert
  parseCertificateRequest : List Nat → Option CSRView
  parsePKCS1PrivateKey : List Nat → Option RSAKeyView
  parsePKCS8PrivateKey : List Nat → Option PKCS8Key

/-- The distinct error returns of `decodeFile` (certforge.go 40-93). -/
inductive DecodeError where
  | readError
  | pemParseError
  | certParseError
  | csrParseError
  | rsaKeyParseError
  | pkcs8ParseError
  | unsupportedKeyType
  | unsupportedBlockType (label : List Char)
deriving DecidableEq

/-- Go `decodeFile` (certforge.go lines 40-93): read, decode the first
PEM block, dispatch on its declared type, and report the summary (the
summaries themselves are total, so only the listed failures error). -/
def decodeFile (env : DecodeOracles) : Except DecodeError Unit :=
  match env.readFile with
  | none => .error .readError
  | some data =>
    match env.pemDecode data with
    | none => .error .pemParseError
    | some block =>
      match block.btype with
      | .certificate =>
        match env.parseCertificate block.bytes with
        | none => .error .certParseError
        | some _ => .ok ()
      | .certificateRequest =>
        match env.parseCertificateRequest block.bytes with
        | none => .error .csrParseError
        | some _ => .ok ()
      | .rsaPrivateKey =>
        match env.parsePKCS1PrivateKey block.bytes with
        | none => .error .rsaKeyParseError
        | some _ => .ok ()
      | .privateKey =>
        match env.parsePKCS8PrivateKey block.bytes with
        | none => .error .pkcs8ParseError
        | some (.rsa _) => .ok ()
        | some .nonRSA => .error .unsupportedKeyType
      | .other label => .error (.unsupportedBlockType label)

theorem lengthLength_eq_len_minimalBase256 :
    ∀ n : Nat, 0 < n → lengthLength n = (minimalBase256 n).length := by
  intro n
  induction n using Nat.strong_induction_on with
  | _ n ih =>
    intro hpos
    have hne : ¬(n = 0) := by omega
    rw [lengthLength, minimalBase256]
    by_cases h255 : 255 < n
    · have hq : 0 < n / 256 := Nat.div_pos (by omega) (by omega)
      have hlt : n / 256 < n := Nat.div_lt_self hpos (by omega)
      simp only [h255, hne, if_true, dif_neg, not_false_iff]
      rw [ih (n / 256) hlt hq]
      simp [List.length_append]
      omega
    · have h0 : n / 256 = 0 := Nat.div_eq_of_lt (by omega)
      simp only [h255, hne, if_false, dif_neg, not_false_iff]
      rw [h0, minimalBase256]
      simp

theorem lengthBytesGo_eq_minimalBase256 :
    ∀ n : Nat, 0 < n → lengthBytesGo n = minimalBase256 n := by
  intro n
  induction n using Nat.strong_induction_on with
  | _ n ih =>
    intro hpos
    have hne : ¬(n = 0) := by omega
    by_cases h255 : 255 < n
    · have hq : 0 < n / 256 := Nat.div_pos (by omega) (by omega)
      have hlt : n / 256 < n := Nat.div_lt_self hpos (by omega)
      have hL : lengthLength n = lengthLength (n / 256) + 1 := by
        rw [lengthLength]; simp [h255]; omega
      unfold lengthBytesGo
      rw [hL, List.range_succ_eq_map, List.reverse_cons, List.map_append]
      rw [List.map_reverse, List.map_map]
      have hfun : ((fun k => n / 256 ^ k % 256) ∘ Nat.succ)
          = fun k => (n / 256) / 256 ^ k % 256 := by
        funext k
        simp only [Function.comp_apply]
        rw [pow_succ, mul_comm, ← Nat.div_div_eq_div_mul]
      rw [hfun]
      have hrec : (List.map (fun k => n / 256 / 256 ^ k % 256)
          (List.range (lengthLength (n / 256)))).reverse
          = lengthBytesGo (n / 256) := by
        unfold lengthBytesGo
        rw [List.map_reverse]
      rw [hrec, ih (n / 256) hlt hq]
      conv_rhs => rw [minimalBase256]
      simp [hne]
    · have hL1 : lengthLength n = 1 := by
        rw [lengthLength]; simp [h255]
      have h0 : n / 256 = 0 := Nat.div_eq_of_lt (by omega)
      unfold lengthBytesGo
      rw [hL1]
      have hr1 : List.range 1 = [0] := rfl
      conv_rhs => rw [minimalBase256]
      simp [hne, h0, minimalBase256, hr1]

theorem appendTagAndLength_univSeq (n : Nat) :
    appendTagAndLength ⟨0, true, 16, n⟩ = 48 :: derLength n := by
  unfold appendTagAndLength derLength
  by_cases h : 128 ≤ n
  · have hpos : 0 < n := by omega
    have hnl : ¬(n < 128) := by omega
    simp [h, hnl, lengthLength_eq_len_minimalBase256 n hpos,
      lengthBytesGo_eq_minimalBase256 n hpos]
  · have hnl : n < 128 := by omega
    simp [h, hnl]

theorem appendTagAndLength_ctx2 (n : Nat) :
    appendTagAndLength ⟨2, false, 2, n⟩ = 130 :: derLength n := by
  unfold appendTagAndLength derLength
  by_cases h : 128 ≤ n
  · have hpos : 0 < n := by omega
    have hnl : ¬(n < 128) := by omega
    simp [h, hnl, lengthLength_eq_len_minimalBase256 n hpos,
      lengthBytesGo_eq_minimalBase256 n hpos]
  · have hnl : n < 128 := by omega
    simp [h, hnl]

theorem marshalRawValue_ctx2 (s : List Nat) :
    marshalRawValue ⟨2, 2, false, s⟩ = derTLV 130 s := by
  unfold marshalRawValue derTLV
  rw [appendTagAndLength_ctx2]
  simp

theorem sanExtensionValue_eq_spec (sans : List (List Nat)) :
    sanExtensionValue sans = sanValueSpec sans := by
  unfold sanExtensionValue marshalRawValueSlice sanValueSpec
  simp only [List.map_map]
  have hmap : (marshalRawValue ∘ fun san : List Nat =>
        (⟨2, 2, false, san⟩ : ARawValue))
      = fun s : List Nat => derTLV 130 s := by
    funext s; exact marshalRawValue_ctx2 s
  rw [hmap, appendTagAndLength_univSeq]
  unfold derTLV
  simp

/-- C2: for every non-empty SAN list the CSR carries exactly one extra
extension, with OID 2.5.29.17, non-critical, whose value is the DER
value the spec describes: a SEQUENCE holding, per entry in order, one
raw value of context-specific class 2 and tag 2 whose content bytes
are the entry's bytes. -/
theorem c2_san_extension_der (sans : List (List Nat)) (h : sans ≠ []) :
    extraExtensionsOf sans =
      [⟨[2, 5, 29, 17], false, sanValueSpec sans⟩] := by
  have hlen : 0 < sans.length := List.length_pos.mpr h
  simp [extraExtensionsOf, hlen, sanExtensionValue_eq_spec]

/-- Witness for C2 at the two-name list ["a", "bc"]. -/
theorem c2_san_extension_der_witness :
    extraExtensionsOf [[97], [98, 99]] =
      [⟨[2, 5, 29, 17], false, sanValueSpec [[97], [98, 99]]⟩] :=
  c2_san_extension_der _ (by decide)

/-- C1 (code bug): the SAN extension the tool builds for the single
name "example.com" is the correct standard DER SEQUENCE (second
conjunct), yet walking it back exactly as `printCSRInfo` does yields
no DNS names at all instead of ["example.com"]: the walk feeds the
SEQUENCE contents — which begin with the context-class identifier
0x82 — to an unmarshal that expects another SEQUENCE header, and that
unmarshal fails, leaving the name list empty. -/
theorem c1_san_decode_of_encode :
    sanDecodeNames (sanExtensionValue
        [[101, 120, 97, 109, 112, 108, 101, 46, 99, 111, 109]]) = []
    ∧ sanExtensionValue [[101, 120, 97, 109, 112, 108, 101, 46, 99, 111, 109]]
        = [48, 13, 130, 11, 101, 120, 97, 109, 112, 108, 101, 46, 99,
           111, 109] :=
  ⟨rfl, rfl⟩

/-- C7: `decodeFile` errors exactly when the read fails, no PEM block
is found, the first block's bytes fail to parse as the structure its
declared type requires, the type is none of the four known labels, or
a PKCS#8 block wraps a non-RSA key; in every other case it returns
nil. -/
theorem c7_decodeFile_errors (env : DecodeOracles) :
    (∃ e, decodeFile env = .error e) ↔
      env.readFile = none
      ∨ (∃ data, env.readFile = some data ∧ env.pemDecode data = none)
      ∨ (∃ data block, env.readFile = some data
          ∧ env.pemDecode data = some block
          ∧ ((block.btype = .certificate
                ∧ env.parseCertificate block.bytes = none)
             ∨ (block.btype = .certificateRequest
                ∧ env.parseCertificateRequest block.bytes = none)
             ∨ (block.btype = .rsaPrivateKey
                ∧ env.parsePKCS1PrivateKey block.bytes = none)
             ∨ (block.btype = .privateKey
                ∧ (env.parsePKCS8PrivateKey block.bytes = none
                   ∨ env.parsePKCS8PrivateKey block.bytes = some .nonRSA))
             ∨ (∃ label, block.btype = .other label))) := by
  cases hrf : env.readFile with
  | none => simp [decodeFile, hrf]
  | some data =>
    cases hpd : env.pemDecode data with
    | none => simp [decodeFile, hrf, hpd]
    | some block =>
      cases hbt : block.btype with
      | certificate =>
        cases hpc : env.parseCertificate block.bytes <;>
          simp [decodeFile, hrf, hpd, hbt, hpc]
      | certificateRequest =>
        cases hpc : env.parseCertificateRequest block.bytes <;>
          simp [decodeFile, hrf, hpd, hbt, hpc]
      | rsaPrivateKey =>
        cases hpc : env.parsePKCS1PrivateKey block.bytes <;>
          simp [decodeFile, hrf, hpd, hbt, hpc]
      | privateKey =>
        cases hpc : env.parsePKCS8PrivateKey block.bytes with
        | none => simp [decodeFile, hrf, hpd, hbt, hpc]
        | some k => cases k <;> simp [decodeFile, hrf, hpd, hbt, hpc]
      | other label => simp [decodeFile, hrf, hpd, hbt]

theorem sanDecodeNames_eq_nil_of_shape_fail (v : List Nat)
    (h : sanShapeOK v = false) : sanDecodeNames v = [] := by
  cases hp : parseOneRaw v with
  | none => simp [sanDecodeNames, hp]
  | some pr =>
    obtain ⟨seq, rest⟩ := pr
    simp only [sanShapeOK, hp] at h
    simp only [sanDecodeNames, hp]
    by_cases hrest : rest = []
    · subst hrest
      by_cases hct : seq.cls = 0 ∧ seq.tag = 16
      · obtain ⟨hc, ht⟩ := hct
        cases hu : unmarshalRawSlice seq.bytes with
        | none => simp [hc, ht, hu]
        | some pr2 =>
          obtain ⟨rvs, rest2⟩ := pr2
          rw [hu] at h
          by_cases hr2 : rest2 = []
          · subst hr2
            simp [hc, ht] at h
          · simp [hc, ht, hu, hr2]
      · simp [hct]
    · simp [hrest]

theorem extractCSRDNSNames_eq_nil (exts : List PkixExtension)
    (h : ∀ e ∈ exts,
        e.oid ≠ [2, 5, 29, 17] ∨ sanShapeOK e.value = false) :
    extractCSRDNSNames exts = [] := by
  induction exts with
  | nil => rfl
  | cons e rest ih =>
    have he := h e (by simp)
    have hrest : ∀ x ∈ rest,
        x.oid ≠ [2, 5, 29, 17] ∨ sanShapeOK x.value = false :=
      fun x hx => h x (by simp [hx])
    unfold extractCSRDNSNames
    rw [ih hrest]
    rcases he with he | he
    · simp [he]
    · simp [sanDecodeNames_eq_nil_of_shape_fail e.value he]

/-- C8: for a CSR whose extensions all either lack the SAN OID
2.5.29.17 or carry a value the walk does not accept (absent or
malformed SAN extension), the SAN extraction yields zero DNS names
while the rest of the summary is still produced. -/
theorem c8_san_graceful (c : CSRView)
    (h : ∀ e ∈ c.extensions,
        e.oid ≠ [2, 5, 29, 17] ∨ sanShapeOK e.value = false) :
    (csrSummary c).dnsNames = []
    ∧ (csrSummary c).subject = formatName c.subject
    ∧ (csrSummary c).signatureValid = c.signatureValid :=
  ⟨extractCSRDNSNames_eq_nil c.extensions h, rfl, rfl⟩

/-- Witness for C8: a CSR with a key-usage extension and a SAN
extension whose value the walk rejects still summarises completely,
with no DNS names. -/
theorem c8_san_graceful_witness :
    (csrSummary c8SampleCSR).dnsNames = []
    ∧ (csrSummary c8SampleCSR).subject = formatName c8SampleCSR.subject
    ∧ (csrSummary c8SampleCSR).signatureValid = true :=
  c8_san_graceful c8SampleCSR (by decide)

end CertForge
